import Mathlib

set_option autoImplicit false

/-!
Verification of the sketch build pipeline of `arduino-cli`
(`arduino/builder/builder.go` and the legacy builder helpers).

The orchestrator (`Builder.Build`, `Builder.build`, `Builder.preprocess`) is
embedded as a sequential step machine: each fallible call site in the Go source
is one `Step`, executed in source order, and an environment `env : Step → Bool`
records which external calls succeed.  The property map
(`go-properties-orderedmap`) and the user-property parser are embedded as
insertion-ordered association lists.
-/

namespace ArduinoBuilder

/-- One call site of the build orchestrator in `arduino/builder/builder.go`,
in source order: the eight call sites of `Builder.preprocess` (lines 247-306),
the nineteen call sites of `Builder.build` (lines 357-474), and the four extra
call sites of `Builder.Build` (lines 320-354). -/
inductive Step where
  | mkdirBuildPath
  | wipeBuildPath
  | hookPrebuild
  | prepareSketchBuildPath
  | findIncludes
  | warnArchIncompatible
  | preprocessSketch
  | readPreprocessedSketch
  | hookSketchPrebuild
  | buildSketch
  | hookSketchPostbuild
  | hookLibrariesPrebuild
  | removeUnusedCompiledLibrariesStep
  | buildLibraries
  | hookLibrariesPostbuild
  | hookCorePrebuild
  | buildCore
  | hookCorePostbuild
  | hookLinkingPrelink
  | link
  | hookLinkingPostlink
  | hookObjcopyPreobjcopy
  | objcopyRecipes
  | hookObjcopyPostobjcopy
  | mergeSketchWithBootloader
  | hookPostbuild
  | saveCompilationDatabase
  | printUsedAndNotUsedLibraries
  | printUsedLibraries
  | exportProjectCMake
  | computeSize
  deriving DecidableEq, Repr

/-- Whether the Go call site of a step can make the orchestrator return an
error.  `warnAboutArchIncompatibleLibraries` returns nothing, the two library
print calls return nothing, and `compilationDatabase.SaveToFile()` is invoked
with its outcome ignored (builder.go line 471), so those cannot fail. -/
def canFail : Step → Bool
  | .warnArchIncompatible => false
  | .saveCompilationDatabase => false
  | .printUsedAndNotUsedLibraries => false
  | .printUsedLibraries => false
  | _ => true

/-- Whether step `s` succeeds under environment `env`: infallible steps always
succeed, a fallible step succeeds when the environment says so. -/
def stepOk (env : Step → Bool) (s : Step) : Bool :=
  if canFail s then env s else true

/-- Run a list of steps in order, stopping at the first failing step, exactly
as the chains of `if err := ...; err != nil { return err }` in the Go source.
Returns the executed steps (the trace) and whether the whole list succeeded. -/
def runSteps (env : Step → Bool) : List Step → List Step × Bool
  | [] => ([], true)
  | s :: rest =>
    if stepOk env s then
      (s :: (runSteps env rest).1, (runSteps env rest).2)
    else
      ([s], false)

/-- The call sites of `Builder.preprocess` (builder.go lines 247-306), in
source order.  `RunRecipe` is not under `src/`; it is modelled from the spec
(§4.2): the recipe runner executes the expanded recipe and reports its failure
to the caller, so each hook call site is a fallible step. -/
def preprocessSteps : List Step :=
  [.mkdirBuildPath, .wipeBuildPath, .hookPrebuild, .prepareSketchBuildPath,
   .findIncludes, .warnArchIncompatible, .preprocessSketch,
   .readPreprocessedSketch]

/-- The call sites of `Builder.build` (builder.go lines 357-474), in source
order. -/
def buildSteps : List Step :=
  [.hookSketchPrebuild, .buildSketch, .hookSketchPostbuild,
   .hookLibrariesPrebuild, .removeUnusedCompiledLibrariesStep,
   .buildLibraries, .hookLibrariesPostbuild,
   .hookCorePrebuild, .buildCore, .hookCorePostbuild,
   .hookLinkingPrelink, .link, .hookLinkingPostlink,
   .hookObjcopyPreobjcopy, .objcopyRecipes, .hookObjcopyPostobjcopy,
   .mergeSketchWithBootloader, .hookPostbuild, .saveCompilationDatabase]

/-- `Builder.Build` (builder.go lines 320-354): run `preprocess`, returning
its error if any; then run `build`, capturing its error; then the two library
print calls; on a `build` error return it; otherwise `exportProjectCMake` and
`size`. -/
def runBuilderBuild (env : Step → Bool) : List Step × Bool :=
  if (runSteps env preprocessSteps).2 = false then
    ((runSteps env preprocessSteps).1, false)
  else if (runSteps env buildSteps).2 = false then
    ((runSteps env preprocessSteps).1 ++ (runSteps env buildSteps).1 ++
      [Step.printUsedAndNotUsedLibraries, Step.printUsedLibraries], false)
  else
    ((runSteps env preprocessSteps).1 ++ (runSteps env buildSteps).1 ++
      [Step.printUsedAndNotUsedLibraries, Step.printUsedLibraries] ++
      (runSteps env [Step.exportProjectCMake, Step.computeSize]).1,
     (runSteps env [Step.exportProjectCMake, Step.computeSize]).2)

/-- The hook-recipe steps of the orchestrator (`recipe.hooks.*` call sites). -/
def isHook : Step → Bool
  | .hookPrebuild => true
  | .hookSketchPrebuild => true
  | .hookSketchPostbuild => true
  | .hookLibrariesPrebuild => true
  | .hookLibrariesPostbuild => true
  | .hookCorePrebuild => true
  | .hookCorePostbuild => true
  | .hookLinkingPrelink => true
  | .hookLinkingPostlink => true
  | .hookObjcopyPreobjcopy => true
  | .hookObjcopyPostobjcopy => true
  | .hookPostbuild => true
  | _ => false

/-- The steps that run a hook recipe or invoke the compiler/linker toolchain. -/
def isHookOrCompile (s : Step) : Bool :=
  isHook s ||
    (match s with
     | .findIncludes => true
     | .preprocessSketch => true
     | .buildSketch => true
     | .buildLibraries => true
     | .buildCore => true
     | .link => true
     | .objcopyRecipes => true
     | _ => false)

theorem runSteps_cons_ok (env : Step → Bool) (s : Step) (l : List Step)
    (h : stepOk env s = true) :
    runSteps env (s :: l) = (s :: (runSteps env l).1, (runSteps env l).2) := by
  simp [runSteps, h]

theorem runSteps_cons_fail (env : Step → Bool) (s : Step) (l : List Step)
    (h : stepOk env s = false) :
    runSteps env (s :: l) = ([s], false) := by
  simp [runSteps, h]

/-- A fully successful run executes every step. -/
theorem runSteps_trace_of_ok (env : Step → Bool) (l : List Step)
    (h : (runSteps env l).2 = true) : (runSteps env l).1 = l := by
  induction l with
  | nil => rfl
  | cons s rest ih =>
    cases hs : stepOk env s with
    | true =>
      rw [runSteps_cons_ok env s rest hs] at h ⊢
      simpa using ih (by simpa using h)
    | false =>
      rw [runSteps_cons_fail env s rest hs] at h
      simp at h

/-- The trace of a run is always an initial segment of the step list. -/
theorem runSteps_trace_initial (env : Step → Bool) (l : List Step) :
    ∃ rest, l = (runSteps env l).1 ++ rest := by
  induction l with
  | nil => exact ⟨[], rfl⟩
  | cons s t ih =>
    cases hs : stepOk env s with
    | true =>
      obtain ⟨rest, hrest⟩ := ih
      refine ⟨rest, ?_⟩
      rw [runSteps_cons_ok env s t hs]
      simpa using hrest
    | false =>
      refine ⟨t, ?_⟩
      rw [runSteps_cons_fail env s t hs]
      simp

/-- If an executed step failed, the run reports failure and the trace ends at
that step: nothing after it is executed. -/
theorem runSteps_fail_ends (env : Step → Bool) (l : List Step) (s : Step)
    (hmem : s ∈ (runSteps env l).1) (hfail : stepOk env s = false) :
    (runSteps env l).2 = false ∧ ∃ t, (runSteps env l).1 = t ++ [s] := by
  induction l with
  | nil => simp [runSteps] at hmem
  | cons a rest ih =>
    cases ha : stepOk env a with
    | true =>
      rw [runSteps_cons_ok env a rest ha] at hmem ⊢
      rcases List.mem_cons.mp hmem with h | h
      · rw [h, ha] at hfail; simp at hfail
      · obtain ⟨hres, t, ht⟩ := ih h
        exact ⟨hres, a :: t, by simp [ht]⟩
    | false =>
      rw [runSteps_cons_fail env a rest ha] at hmem ⊢
      rcases List.mem_cons.mp hmem with h | h
      · exact ⟨rfl, [], by simp [h]⟩
      · simp at h

/-- Running `l₁ ++ l₂` when every step of `l₁` succeeds first executes all of
`l₁` and then behaves as the run of `l₂`. -/
theorem runSteps_append_ok (env : Step → Bool) (l₁ l₂ : List Step)
    (h : ∀ t ∈ l₁, stepOk env t = true) :
    runSteps env (l₁ ++ l₂) = (l₁ ++ (runSteps env l₂).1, (runSteps env l₂).2) := by
  induction l₁ with
  | nil => simp
  | cons a rest ih =>
    have ha : stepOk env a = true := h a (by simp)
    rw [List.cons_append, runSteps_cons_ok env a (rest ++ l₂) ha,
      ih (fun t ht => h t (by simp [ht]))]
    rfl

/-- If a step of `l₂` was executed in a run of `l₁ ++ l₂` (and does not occur
in `l₁`), then every step of `l₁` succeeded. -/
theorem runSteps_mem_append (env : Step → Bool) (l₁ l₂ : List Step) (s : Step)
    (hnot : s ∉ l₁) (hmem : s ∈ (runSteps env (l₁ ++ l₂)).1) :
    ∀ t ∈ l₁, stepOk env t = true := by
  induction l₁ with
  | nil => simp
  | cons a rest ih =>
    cases ha : stepOk env a with
    | true =>
      intro t ht
      rcases List.mem_cons.mp ht with h | h
      · rw [h]; exact ha
      · rw [List.cons_append, runSteps_cons_ok env a (rest ++ l₂) ha] at hmem
        rcases List.mem_cons.mp hmem with h2 | h2
        · exact absurd (by simp [h2]) hnot
        · exact ih (fun hc => hnot (by simp [hc])) h2 t h
    | false =>
      rw [List.cons_append, runSteps_cons_fail env a (rest ++ l₂) ha] at hmem
      rcases List.mem_cons.mp hmem with h | h
      · exact absurd (by simp [h]) hnot
      · simp at h

/-- The run of `Builder.preprocess` starts with `MkdirAll` and
`WipeBuildPath`: either `MkdirAll` fails at once, or `WipeBuildPath` fails
right after it, or the wipe succeeded and everything else comes after it. -/
theorem preprocess_trace_shape (env : Step → Bool) :
    ((runSteps env preprocessSteps).1 = [Step.mkdirBuildPath] ∧
      (runSteps env preprocessSteps).2 = false) ∨
    ((runSteps env preprocessSteps).1 = [Step.mkdirBuildPath, Step.wipeBuildPath] ∧
      (runSteps env preprocessSteps).2 = false) ∨
    (env Step.wipeBuildPath = true ∧
      ∃ t, (runSteps env preprocessSteps).1 =
        Step.mkdirBuildPath :: Step.wipeBuildPath :: t) := by
  have hmk : stepOk env Step.mkdirBuildPath = env Step.mkdirBuildPath := rfl
  have hwp : stepOk env Step.wipeBuildPath = env Step.wipeBuildPath := rfl
  cases h1 : env Step.mkdirBuildPath with
  | false =>
    left
    have e1 : runSteps env preprocessSteps = ([Step.mkdirBuildPath], false) := by
      simp only [preprocessSteps]
      exact runSteps_cons_fail env _ _ (hmk.trans h1)
    rw [e1]
    exact ⟨rfl, rfl⟩
  | true =>
    cases h2 : env Step.wipeBuildPath with
    | false =>
      right; left
      have e2 : runSteps env preprocessSteps =
          ([Step.mkdirBuildPath, Step.wipeBuildPath], false) := by
        simp only [preprocessSteps]
        rw [runSteps_cons_ok env _ _ (hmk.trans h1),
          runSteps_cons_fail env _ _ (hwp.trans h2)]
      rw [e2]
      exact ⟨rfl, rfl⟩
    | true =>
      right; right
      refine ⟨rfl, ?_⟩
      have e3 : (runSteps env preprocessSteps).1 =
          Step.mkdirBuildPath :: Step.wipeBuildPath ::
            (runSteps env (preprocessSteps.drop 2)).1 := by
        simp only [preprocessSteps]
        rw [runSteps_cons_ok env _ _ (hmk.trans h1),
          runSteps_cons_ok env _ _ (hwp.trans h2)]
        rfl
      exact ⟨_, e3⟩

/-- C1 is refuted on the code: when `BuildSketch` fails, `Builder.build`
returns at the `return err` on line 366 of builder.go, so the
`compilationDatabase.SaveToFile()` call on line 471 is never reached — the
compilation-database write does not execute. -/
theorem compilation_database_skipped_on_failure_counterexample :
    (runSteps (fun s => s != Step.buildSketch) buildSteps).2 = false ∧
    Step.saveCompilationDatabase ∉
      (runSteps (fun s => s != Step.buildSketch) buildSteps).1 := by
  decide

/-- C1 (amended): `Builder.build` writes the compilation database exactly when
every phase before the write succeeded; on any compile, link, or hook failure
the build aborts and the write is skipped together with all remaining
phases. -/
theorem build_writes_compilation_database_iff_success (env : Step → Bool) :
    Step.saveCompilationDatabase ∈ (runSteps env buildSteps).1 ↔
      (runSteps env buildSteps).2 = true := by
  constructor
  · intro hmem
    have hsplit : buildSteps =
        buildSteps.dropLast ++ [Step.saveCompilationDatabase] := by decide
    rw [hsplit] at hmem ⊢
    have hnot : Step.saveCompilationDatabase ∉ buildSteps.dropLast := by decide
    have hall := runSteps_mem_append env buildSteps.dropLast
      [Step.saveCompilationDatabase] _ hnot hmem
    rw [runSteps_append_ok env _ _ hall]
    rfl
  · intro hok
    rw [runSteps_trace_of_ok env buildSteps hok]
    decide

/-- C2: for every successful run, `Builder.build` executes its phases exactly
in the order of §4.7 — sketch.prebuild hook, compile sketch, sketch.postbuild
hook, libraries.prebuild hook, removeUnusedCompiledLibraries, compile
libraries, libraries.postbuild hook, core.prebuild hook, build core,
core.postbuild hook, linking.prelink hook, link, linking.postlink hook,
objcopy.preobjcopy hook, objcopy recipes, objcopy.postobjcopy hook, merge
with bootloader, postbuild hook, compilation-database write — and every run
aborts at its first error, so the executed trace is always an initial segment
of this order. -/
theorem build_phases_in_order (env : Step → Bool) :
    ((runSteps env buildSteps).2 = true →
      (runSteps env buildSteps).1 =
        [Step.hookSketchPrebuild, Step.buildSketch, Step.hookSketchPostbuild,
         Step.hookLibrariesPrebuild, Step.removeUnusedCompiledLibrariesStep,
         Step.buildLibraries, Step.hookLibrariesPostbuild,
         Step.hookCorePrebuild, Step.buildCore, Step.hookCorePostbuild,
         Step.hookLinkingPrelink, Step.link, Step.hookLinkingPostlink,
         Step.hookObjcopyPreobjcopy, Step.objcopyRecipes,
         Step.hookObjcopyPostobjcopy, Step.mergeSketchWithBootloader,
         Step.hookPostbuild, Step.saveCompilationDatabase]) ∧
    (∃ rest, buildSteps = (runSteps env buildSteps).1 ++ rest) := by
  exact ⟨fun h => by rw [runSteps_trace_of_ok env buildSteps h]; rfl,
    runSteps_trace_initial env buildSteps⟩

theorem build_phases_in_order_witness :
    (runSteps (fun _ => true) buildSteps).2 = true ∧
    (runSteps (fun _ => true) buildSteps).1 =
      [Step.hookSketchPrebuild, Step.buildSketch, Step.hookSketchPostbuild,
       Step.hookLibrariesPrebuild, Step.removeUnusedCompiledLibrariesStep,
       Step.buildLibraries, Step.hookLibrariesPostbuild,
       Step.hookCorePrebuild, Step.buildCore, Step.hookCorePostbuild,
       Step.hookLinkingPrelink, Step.link, Step.hookLinkingPostlink,
       Step.hookObjcopyPreobjcopy, Step.objcopyRecipes,
       Step.hookObjcopyPostobjcopy, Step.mergeSketchWithBootloader,
       Step.hookPostbuild, Step.saveCompilationDatabase] :=
  ⟨by decide, (build_phases_in_order (fun _ => true)).1 (by decide)⟩

/-- C3 is refuted on the code: a failing `sketch.postbuild` post-hook aborts
the build at the `return err` on line 372 of builder.go — the library, core
and link phases never execute — instead of producing only a warning and
continuing. -/
theorem post_hook_failure_aborts_counterexample :
    (runSteps (fun s => s != Step.hookSketchPostbuild) buildSteps).2 = false ∧
    Step.buildLibraries ∉
      (runSteps (fun s => s != Step.hookSketchPostbuild) buildSteps).1 ∧
    (runSteps (fun s => s != Step.hookSketchPostbuild) buildSteps).1 =
      [Step.hookSketchPrebuild, Step.buildSketch, Step.hookSketchPostbuild] := by
  decide

/-- C3 (amended): every hook failure is fatal, pre-hooks and post-hooks alike:
when a reached hook step fails, the orchestrator reports failure and executes
nothing after the hook — both in `Builder.build` and, for the `prebuild`
hook, in `Builder.preprocess`. -/
theorem hook_failure_is_fatal (env : Step → Bool) (h : Step)
    (hhook : isHook h = true) (hfail : env h = false) :
    (h ∈ (runSteps env buildSteps).1 →
      (runSteps env buildSteps).2 = false ∧
      ∃ t, (runSteps env buildSteps).1 = t ++ [h]) ∧
    (h ∈ (runSteps env preprocessSteps).1 →
      (runSteps env preprocessSteps).2 = false ∧
      ∃ t, (runSteps env preprocessSteps).1 = t ++ [h]) := by
  have hcan : canFail h = true := by
    cases h <;> simp_all [isHook, canFail]
  have hso : stepOk env h = false := by simp [stepOk, hcan, hfail]
  exact ⟨fun hm => runSteps_fail_ends env buildSteps h hm hso,
    fun hm => runSteps_fail_ends env preprocessSteps h hm hso⟩

theorem hook_failure_is_fatal_witness :
    (runSteps (fun s => s != Step.hookLibrariesPostbuild) buildSteps).2 = false ∧
    ∃ t, (runSteps (fun s => s != Step.hookLibrariesPostbuild) buildSteps).1 =
      t ++ [Step.hookLibrariesPostbuild] :=
  (hook_failure_is_fatal (fun s => s != Step.hookLibrariesPostbuild)
    Step.hookLibrariesPostbuild (by decide) (by decide)).1 (by decide)

/-- C5: in every run of `Builder.Build`, the build-options gatekeeper's wipe
of the build directory executes and succeeds before any hook recipe and
before any compile recipe: whenever such a step is executed, the trace starts
with `MkdirAll` followed by the successful `WipeBuildPath`, and the step
comes strictly after the wipe. -/
theorem wipe_precedes_hooks_and_compiles (env : Step → Bool) (s : Step)
    (hs : isHookOrCompile s = true) (hmem : s ∈ (runBuilderBuild env).1) :
    env Step.wipeBuildPath = true ∧
    ∃ rest, (runBuilderBuild env).1 =
      Step.mkdirBuildPath :: Step.wipeBuildPath :: rest ∧ s ∈ rest := by
  have hsm : s ≠ Step.mkdirBuildPath ∧ s ≠ Step.wipeBuildPath := by
    cases s <;> simp_all [isHookOrCompile, isHook]
  rcases preprocess_trace_shape env with ⟨ht, hf⟩ | ⟨ht, hf⟩ | ⟨hw, t, ht⟩
  · rw [runBuilderBuild, if_pos hf, ht] at hmem
    simp only [List.mem_singleton] at hmem
    exact absurd hmem hsm.1
  · rw [runBuilderBuild, if_pos hf, ht] at hmem
    rcases List.mem_cons.mp hmem with h | h
    · exact absurd h hsm.1
    · simp only [List.mem_singleton] at h
      exact absurd h hsm.2
  · refine ⟨hw, ?_⟩
    have hshape : ∃ r, (runBuilderBuild env).1 =
        Step.mkdirBuildPath :: Step.wipeBuildPath :: r := by
      rw [runBuilderBuild]
      by_cases hp : (runSteps env preprocessSteps).2 = false
      · rw [if_pos hp, ht]
        exact ⟨t, rfl⟩
      · by_cases hb : (runSteps env buildSteps).2 = false
        · rw [if_neg hp, if_pos hb, ht]
          exact ⟨t ++ (runSteps env buildSteps).1 ++
            [Step.printUsedAndNotUsedLibraries, Step.printUsedLibraries], by simp⟩
        · rw [if_neg hp, if_neg hb, ht]
          exact ⟨t ++ (runSteps env buildSteps).1 ++
            [Step.printUsedAndNotUsedLibraries, Step.printUsedLibraries] ++
            (runSteps env [Step.exportProjectCMake, Step.computeSize]).1, by simp⟩
    obtain ⟨r, hr⟩ := hshape
    rw [hr] at hmem
    rcases List.mem_cons.mp hmem with h | h
    · exact absurd h hsm.1
    rcases List.mem_cons.mp h with h2 | h2
    · exact absurd h2 hsm.2
    · exact ⟨r, hr, h2⟩

theorem wipe_precedes_hooks_and_compiles_witness :
    (fun _ => true : Step → Bool) Step.wipeBuildPath = true ∧
    ∃ rest, (runBuilderBuild (fun _ => true)).1 =
      Step.mkdirBuildPath :: Step.wipeBuildPath :: rest ∧
      Step.buildSketch ∈ rest :=
  wipe_precedes_hooks_and_compiles (fun _ => true) Step.buildSketch
    (by decide) (by decide)


/-- Modelled from the spec: the Property Map component (§4.1, §3 "Build
Properties"), whose implementation (`go-properties-orderedmap`) is not under
`src/`: an insertion-ordered association list from string keys to string
values. -/
abbrev PropMap := List (String × String)

/-- `Map.Get`: the value of the first entry with key `k`, if any. -/
def pmGet (m : PropMap) (k : String) : Option String :=
  (m.find? (fun p => p.1 == k)).map Prod.snd

/-- Whether the map contains an entry with key `k`. -/
def pmHasKey (m : PropMap) (k : String) : Bool :=
  m.any (fun p => p.1 == k)

/-- `Map.Set`: replace the value of an existing key in place, otherwise append
the pair at the end (insertion order is preserved). -/
def pmSet (m : PropMap) (k v : String) : PropMap :=
  if pmHasKey m k then m.map (fun p => if p.1 == k then (k, v) else p)
  else m ++ [(k, v)]

/-- `Map.Merge`: set every entry of `other` into `m` in order, so values from
`other` win (§4.1). -/
def pmMerge (m other : PropMap) : PropMap :=
  other.foldl (fun acc p => pmSet acc p.1 p.2) m

/-- The value of the last entry of `m` with key `k`, if any: the value that
survives when `m` is merged into another map. -/
def pmLast (m : PropMap) (k : String) : Option String :=
  match m with
  | [] => none
  | p :: rest =>
    match pmLast rest k with
    | some v => some v
    | none => if p.1 == k then some p.2 else none

theorem pmGet_nil (k : String) : pmGet [] k = none := rfl

theorem pmGet_cons (p : String × String) (m : PropMap) (k : String) :
    pmGet (p :: m) k = if p.1 == k then some p.2 else pmGet m k := by
  by_cases hp : (p.1 == k) = true
  · simp [pmGet, List.find?_cons_of_pos, hp]
  · simp only [Bool.not_eq_true] at hp
    simp [pmGet, List.find?_cons_of_neg, hp]

theorem pmHasKey_cons (p : String × String) (m : PropMap) (k : String) :
    pmHasKey (p :: m) k = ((p.1 == k) || pmHasKey m k) := by
  simp [pmHasKey]

theorem pmHasKey_eq_false_iff (m : PropMap) (k : String) :
    pmHasKey m k = false ↔ k ∉ m.map Prod.fst := by
  rw [pmHasKey, List.any_eq_false]
  constructor
  · intro h hk
    obtain ⟨p, hp, hfst⟩ := List.mem_map.mp hk
    have h2 := h p hp
    rw [hfst] at h2
    simp at h2
  · intro h p hp
    simp only [Bool.not_eq_true, beq_eq_false_iff_ne, ne_eq]
    intro he
    exact h (List.mem_map.mpr ⟨p, hp, he⟩)

theorem pmGet_eq_none_of_not_hasKey (m : PropMap) (k : String)
    (h : pmHasKey m k = false) : pmGet m k = none := by
  have h2 := (pmHasKey_eq_false_iff m k).mp h
  have hfind : m.find? (fun p => p.1 == k) = none := by
    rw [List.find?_eq_none]
    intro p hp hk
    exact h2 (List.mem_map.mpr ⟨p, hp, by simpa using hk⟩)
  rw [pmGet, hfind]
  rfl

theorem pmLast_eq_none_of_not_hasKey (m : PropMap) (k : String)
    (h : pmHasKey m k = false) : pmLast m k = none := by
  induction m with
  | nil => rfl
  | cons p rest ih =>
    rw [pmHasKey_cons] at h
    have hp : (p.1 == k) = false := by
      rcases Bool.eq_false_or_eq_true (p.1 == k) with h2 | h2
      · rw [h2] at h
        simp at h
      · exact h2
    have hrest : pmHasKey rest k = false := by
      rw [hp] at h
      simpa using h
    simp [pmLast, ih hrest, hp]

theorem pmGet_replace_self (k v : String) :
    ∀ m : PropMap, pmHasKey m k = true →
      pmGet (m.map (fun p => if p.1 == k then (k, v) else p)) k = some v
  | [], h => by simp [pmHasKey] at h
  | p :: rest, h => by
    cases hp : (p.1 == k) with
    | true =>
      have hpk : p.1 = k := by simpa using hp
      simp [pmGet_cons, hpk]
    | false =>
      rw [pmHasKey_cons, hp] at h
      have h2 : pmHasKey rest k = true := by simpa using h
      rw [List.map_cons, pmGet_cons]
      simp only [hp]
      simp only [Bool.false_eq_true, if_false]
      rw [hp]
      simp only [Bool.false_eq_true, if_false]
      exact pmGet_replace_self k v rest h2

theorem pmGet_replace_ne (k v k2 : String) (hne : k ≠ k2) :
    ∀ m : PropMap,
      pmGet (m.map (fun p => if p.1 == k then (k, v) else p)) k2 = pmGet m k2
  | [] => rfl
  | p :: rest => by
    rw [List.map_cons, pmGet_cons, pmGet_cons]
    cases hp : (p.1 == k) with
    | true =>
      have hpk : p.1 = k := by simpa using hp
      have h1 : (k == k2) = false := by simpa using hne
      have h2 : (p.1 == k2) = false := by
        rw [hpk]
        exact h1
      simp only [hp, if_true, h1, h2]
      simp only [Bool.false_eq_true, if_false]
      exact pmGet_replace_ne k v k2 hne rest
    | false =>
      simp only [hp, Bool.false_eq_true, if_false]
      cases hq : (p.1 == k2) with
      | true => simp [hq]
      | false =>
        simp only [hq, Bool.false_eq_true, if_false]
        exact pmGet_replace_ne k v k2 hne rest

theorem pmGet_append_single (k v k2 : String) :
    ∀ m : PropMap,
      pmGet (m ++ [(k, v)]) k2 =
        match pmGet m k2 with
        | some w => some w
        | none => if k == k2 then some v else none
  | [] => by
    rw [List.nil_append, pmGet_cons]
    rfl
  | p :: rest => by
    rw [List.cons_append, pmGet_cons, pmGet_cons]
    cases hq : (p.1 == k2) with
    | true => simp [hq]
    | false =>
      simp only [hq, Bool.false_eq_true, if_false]
      exact pmGet_append_single k v k2 rest

theorem pmGet_set_self (m : PropMap) (k v : String) :
    pmGet (pmSet m k v) k = some v := by
  by_cases h : pmHasKey m k = true
  · rw [pmSet, if_pos h]
    exact pmGet_replace_self k v m h
  · rw [pmSet, if_neg h]
    have h2 : pmHasKey m k = false := by simpa using h
    rw [pmGet_append_single k v k m, pmGet_eq_none_of_not_hasKey m k h2]
    simp

theorem pmGet_set_ne (m : PropMap) (k v k2 : String) (hne : k ≠ k2) :
    pmGet (pmSet m k v) k2 = pmGet m k2 := by
  by_cases h : pmHasKey m k = true
  · rw [pmSet, if_pos h]
    exact pmGet_replace_ne k v k2 hne m
  · rw [pmSet, if_neg h]
    rw [pmGet_append_single k v k2 m]
    have h1 : (k == k2) = false := by simpa using hne
    cases hg : pmGet m k2 <;> simp [hg, h1]

theorem pmMerge_nil (m : PropMap) : pmMerge m [] = m := rfl

theorem pmMerge_cons (m : PropMap) (p : String × String) (rest : PropMap) :
    pmMerge m (p :: rest) = pmMerge (pmSet m p.1 p.2) rest := rfl

/-- Merging lets the merged-in map win: a lookup in `pmMerge m other` returns
the last value `other` holds for the key, and falls back to `m` otherwise. -/
theorem pmGet_merge (m other : PropMap) (k : String) :
    pmGet (pmMerge m other) k =
      match pmLast other k with
      | some v => some v
      | none => pmGet m k := by
  induction other generalizing m with
  | nil => rfl
  | cons p rest ih =>
    rw [pmMerge_cons, ih]
    cases hl : pmLast rest k with
    | some v => simp [pmLast, hl]
    | none =>
      simp only [pmLast, hl]
      cases hp : (p.1 == k) with
      | true =>
        have hpk : p.1 = k := by simpa using hp
        simp only [hp, if_true]
        rw [← hpk, pmGet_set_self]
      | false =>
        have hne : p.1 ≠ k := by simpa using hp
        simp only [hp, Bool.false_eq_true, if_false]
        exact pmGet_set_ne m p.1 p.2 k hne

/-- On a map whose keys are pairwise distinct, first and last lookup agree. -/
theorem pmLast_eq_pmGet_of_nodup (m : PropMap) (k : String)
    (h : (m.map Prod.fst).Nodup) : pmLast m k = pmGet m k := by
  induction m with
  | nil => rfl
  | cons p rest ih =>
    simp only [List.map_cons, List.nodup_cons] at h
    obtain ⟨hnotin, hrest⟩ := h
    rw [pmGet_cons]
    cases hp : (p.1 == k) with
    | true =>
      have hpk : p.1 = k := by simpa using hp
      have hnk : pmHasKey rest k = false := by
        rw [pmHasKey_eq_false_iff, ← hpk]
        exact hnotin
      simp [pmLast, pmLast_eq_none_of_not_hasKey rest k hnk, hp]
    | false =>
      simp only [pmLast, hp, Bool.false_eq_true, if_false]
      rw [ih hrest]
      cases hg : pmGet rest k <;> simp [hg]

/-- The keys of `pmSet m k v`: unchanged when `k` was present, extended by `k`
at the end otherwise. -/
theorem pmSet_keys (m : PropMap) (k v : String) :
    (pmSet m k v).map Prod.fst =
      if pmHasKey m k then m.map Prod.fst else m.map Prod.fst ++ [k] := by
  by_cases h : pmHasKey m k = true
  · rw [pmSet, if_pos h, if_pos h, List.map_map]
    apply List.map_congr_left
    intro p hp
    cases hq : (p.1 == k) with
    | true =>
      have : p.1 = k := by simpa using hq
      simp [Function.comp, hq, this]
    | false => simp [Function.comp, hq]
  · rw [pmSet, if_neg h, if_neg h]
    simp

/-- `pmSet` preserves distinctness of keys. -/
theorem pmSet_keys_nodup (m : PropMap) (k v : String)
    (h : (m.map Prod.fst).Nodup) : ((pmSet m k v).map Prod.fst).Nodup := by
  rw [pmSet_keys]
  cases hk : pmHasKey m k with
  | true => simpa using h
  | false =>
    simp only [Bool.false_eq_true, if_false]
    rw [List.nodup_append]
    exact ⟨h, List.nodup_singleton k,
      by simpa using fun hmem => (pmHasKey_eq_false_iff m k).mp hk hmem⟩


/-- Strip leading and trailing whitespace, as Go's `strings.TrimSpace`. -/
def trimChars (cs : List Char) : List Char :=
  ((cs.dropWhile Char.isWhitespace).reverse.dropWhile Char.isWhitespace).reverse

/-- Split a character list at its first `=`, as Go's `strings.SplitN(s, "=",
2)` does; `none` when no `=` occurs. -/
def splitKeyValue : List Char → Option (List Char × List Char)
  | [] => none
  | c :: rest =>
    if c = '=' then some ([], rest)
    else
      match splitKeyValue rest with
      | some (k, v) => some (c :: k, v)
      | none => none

/-- Modelled from the spec: parsing of one user property override line
(`properties.LoadFromSlice`, not under `src/`; §7 "malformed property
override").  A line is trimmed; empty lines and comment lines are skipped;
otherwise it must contain an `=` separating a key from a value, or parsing
fails. -/
def parseLine (line : String) : Except String (Option (String × String)) :=
  match trimChars line.data with
  | [] => Except.ok none
  | c :: rest =>
    if c = '#' then Except.ok none
    else
      match splitKeyValue (c :: rest) with
      | none => Except.error "invalid line format, should be key=value"
      | some (k, v) =>
        Except.ok (some (String.mk (trimChars k), String.mk (trimChars v)))

/-- Modelled from the spec: `properties.LoadFromSlice` folds `parseLine` over
the given lines, failing on the first malformed line and otherwise setting
each parsed pair into the map in order. -/
def loadFromSliceAux : List String → PropMap → Except String PropMap
  | [], acc => Except.ok acc
  | line :: rest, acc =>
    match parseLine line with
    | Except.error e => Except.error e
    | Except.ok none => loadFromSliceAux rest acc
    | Except.ok (some (k, v)) => loadFromSliceAux rest (pmSet acc k v)

/-- Modelled from the spec: `properties.LoadFromSlice` starting from the empty
map. -/
def loadFromSlice (lines : List String) : Except String PropMap :=
  loadFromSliceAux lines []

/-- A malformed line anywhere in the input makes `loadFromSliceAux` fail. -/
theorem loadFromSliceAux_error (lines : List String) (acc : PropMap)
    (h : ∃ line ∈ lines, ∃ msg, parseLine line = Except.error msg) :
    ∃ msg2, loadFromSliceAux lines acc = Except.error msg2 := by
  induction lines generalizing acc with
  | nil => simp at h
  | cons l rest ih =>
    obtain ⟨line, hline, msg, hmsg⟩ := h
    cases hp : parseLine l with
    | error e => exact ⟨e, by simp [loadFromSliceAux, hp]⟩
    | ok o =>
      have hrest : line ∈ rest := by
        rcases List.mem_cons.mp hline with h1 | h1
        · rw [h1] at hmsg
          rw [hmsg] at hp
          exact absurd hp (by simp)
        · exact h1
      cases o with
      | none =>
        simpa [loadFromSliceAux, hp] using
          ih acc ⟨line, hrest, msg, hmsg⟩
      | some kv =>
        simpa [loadFromSliceAux, hp] using
          ih (pmSet acc kv.1 kv.2) ⟨line, hrest, msg, hmsg⟩

/-- `loadFromSliceAux` preserves distinctness of map keys. -/
theorem loadFromSliceAux_nodup (lines : List String) (acc custom : PropMap)
    (hacc : (acc.map Prod.fst).Nodup)
    (h : loadFromSliceAux lines acc = Except.ok custom) :
    (custom.map Prod.fst).Nodup := by
  induction lines generalizing acc with
  | nil =>
    rw [loadFromSliceAux] at h
    cases h
    exact hacc
  | cons l rest ih =>
    rw [loadFromSliceAux] at h
    cases hp : parseLine l with
    | error e => rw [hp] at h; cases h
    | ok o =>
      rw [hp] at h
      cases o with
      | none => exact ih acc hacc h
      | some kv => exact ih (pmSet acc kv.1 kv.2) (pmSet_keys_nodup acc kv.1 kv.2 hacc) h

/-- The inputs of `NewBuilder` that matter to the embedded claims
(builder.go lines 99-120).  The sketch and the build path are taken non-nil:
`NewBuilder` dereferences both unconditionally (lines 151, 164). -/
structure NewBuilderInput where
  boardBuildProperties : PropMap
  buildPath : String
  sketchMainFileBase : String
  sketchFullPath : String
  optimizeForDebug : Bool
  requestBuildProperties : List String
  deriving Repr

/-- The filesystem collaborators `NewBuilder` consults: `Path.Canonical`
(an abstract canonicalization of path strings), whether the three
`Join(...).Abs()` calls succeed, and whether `detector.LibrariesLoader`
succeeds. -/
structure BuildEnv where
  canonical : String → String
  absOk : Bool
  librariesLoaderOk : Bool

/-- The failure cases of `NewBuilder`, in the order the code can hit them. -/
inductive NewBuilderError where
  | invalidBuildProperties (msg : String)
  | pathResolutionError
  | sketchCannotBeLocatedInBuildPath
  | librariesLoaderError
  deriving DecidableEq, Repr

/-- The parts of the constructed `Builder` the embedded claims read. -/
structure BuilderModel where
  buildProperties : PropMap
  buildPath : String
  customBuildProperties : List String
  deriving DecidableEq, Repr

/-- The first part of the build-properties construction of `NewBuilder`
(builder.go lines 121-132): merge the board properties into a fresh map, then
set `build.path`, `build.project_name` and `build.source.path`. -/
def pathProperties (inp : NewBuilderInput) : PropMap :=
  pmSet (pmSet (pmSet (pmMerge [] inp.boardBuildProperties)
    "build.path" inp.buildPath)
    "build.project_name" inp.sketchMainFileBase)
    "build.source.path" inp.sketchFullPath

/-- The build-properties construction of `NewBuilder` (builder.go lines
121-141): after `pathProperties`, select `compiler.optimization_flags` from
its `.debug`/`.release` variant when that variant exists. -/
def baseBuildProperties (inp : NewBuilderInput) : PropMap :=
  if inp.optimizeForDebug then
    match pmGet (pathProperties inp) "compiler.optimization_flags.debug" with
    | some fl => pmSet (pathProperties inp) "compiler.optimization_flags" fl
    | none => pathProperties inp
  else
    match pmGet (pathProperties inp) "compiler.optimization_flags.release" with
    | some fl => pmSet (pathProperties inp) "compiler.optimization_flags" fl
    | none => pathProperties inp

/-- `NewBuilder` (builder.go lines 99-223): build the property map, parse the
user overrides (failing with "invalid build properties" on a malformed line,
line 146), merge them in (line 148), resolve the three build sub-paths (lines
151-162), reject a sketch located in the build path (lines 164-166, compared
on canonical forms), load the libraries (line 172), and construct the
Builder. -/
def newBuilderChecked (env : BuildEnv) (inp : NewBuilderInput)
    (custom : PropMap) : Except NewBuilderError BuilderModel :=
  if env.absOk = false then Except.error NewBuilderError.pathResolutionError
  else if env.canonical inp.buildPath == env.canonical inp.sketchFullPath then
    Except.error NewBuilderError.sketchCannotBeLocatedInBuildPath
  else if env.librariesLoaderOk = false then
    Except.error NewBuilderError.librariesLoaderError
  else
    Except.ok
      { buildProperties := pmMerge (baseBuildProperties inp) custom,
        buildPath := inp.buildPath,
        customBuildProperties :=
          inp.requestBuildProperties ++ ["build.warn_data_percentage=75"] }

def newBuilder (env : BuildEnv) (inp : NewBuilderInput) :
    Except NewBuilderError BuilderModel :=
  match loadFromSlice inp.requestBuildProperties with
  | Except.error msg => Except.error (NewBuilderError.invalidBuildProperties msg)
  | Except.ok custom => newBuilderChecked env inp custom

theorem newBuilder_eq_checked (env : BuildEnv) (inp : NewBuilderInput)
    (custom : PropMap)
    (h : loadFromSlice inp.requestBuildProperties = Except.ok custom) :
    newBuilder env inp = newBuilderChecked env inp custom := by
  rw [newBuilder, h]

theorem newBuilder_eq_error (env : BuildEnv) (inp : NewBuilderInput)
    (msg : String)
    (h : loadFromSlice inp.requestBuildProperties = Except.error msg) :
    newBuilder env inp =
      Except.error (NewBuilderError.invalidBuildProperties msg) := by
  rw [newBuilder, h]


/-- Lookups other than the keys `NewBuilder` sets itself pass through
`baseBuildProperties` to the board properties. -/
theorem pmGet_baseBuildProperties (inp : NewBuilderInput) (k : String)
    (h1 : k ≠ "build.path") (h2 : k ≠ "build.project_name")
    (h3 : k ≠ "build.source.path") (h4 : k ≠ "compiler.optimization_flags")
    (hnb : (inp.boardBuildProperties.map Prod.fst).Nodup) :
    pmGet (baseBuildProperties inp) k = pmGet inp.boardBuildProperties k := by
  have hm : pmGet (pmMerge [] inp.boardBuildProperties) k =
      pmGet inp.boardBuildProperties k := by
    rw [pmGet_merge, pmLast_eq_pmGet_of_nodup _ k hnb]
    cases hg : pmGet inp.boardBuildProperties k <;> simp [hg, pmGet_nil]
  have hs : pmGet (pathProperties inp) k = pmGet inp.boardBuildProperties k := by
    rw [pathProperties, pmGet_set_ne _ _ _ _ (Ne.symm h3),
      pmGet_set_ne _ _ _ _ (Ne.symm h2), pmGet_set_ne _ _ _ _ (Ne.symm h1), hm]
  rw [baseBuildProperties]
  cases hd : inp.optimizeForDebug with
  | true =>
    simp only [if_true]
    cases hg : pmGet (pathProperties inp) "compiler.optimization_flags.debug" with
    | some fl =>
      rw [pmGet_set_ne _ _ _ _ (Ne.symm h4), hs]
    | none => exact hs
  | false =>
    simp only [Bool.false_eq_true, if_false]
    cases hg : pmGet (pathProperties inp) "compiler.optimization_flags.release" with
    | some fl =>
      rw [pmGet_set_ne _ _ _ _ (Ne.symm h4), hs]
    | none => exact hs

/-- When `NewBuilder` succeeds, the Builder it returns carries the merged
property map. -/
theorem newBuilder_ok_buildProperties (env : BuildEnv) (inp : NewBuilderInput)
    (b : BuilderModel) (custom : PropMap)
    (hok : newBuilder env inp = Except.ok b)
    (hcustom : loadFromSlice inp.requestBuildProperties = Except.ok custom) :
    b.buildProperties = pmMerge (baseBuildProperties inp) custom := by
  rw [newBuilder_eq_checked env inp custom hcustom, newBuilderChecked] at hok
  by_cases habs : env.absOk = false
  · rw [if_pos habs] at hok
    exact absurd hok (by simp)
  · rw [if_neg habs] at hok
    by_cases hcan : (env.canonical inp.buildPath ==
        env.canonical inp.sketchFullPath) = true
    · rw [if_pos hcan] at hok
      exact absurd hok (by simp)
    · rw [if_neg hcan] at hok
      by_cases hlib : env.librariesLoaderOk = false
      · rw [if_pos hlib] at hok
        exact absurd hok (by simp)
      · rw [if_neg hlib] at hok
        injection hok with hb
        rw [← hb]

/-- The filesystem and loader collaborators used in the concrete instances
below: identity canonicalization, successful path resolution, successful
library loading. -/
def envOpt : BuildEnv :=
  { canonical := id, absOk := true, librariesLoaderOk := true }

/-- A board definition carrying both `compiler.optimization_flags` and its
`.release` variant, with no user property overrides. -/
def inpFlags : NewBuilderInput :=
  { boardBuildProperties :=
      [("compiler.optimization_flags", "-Os"),
       ("compiler.optimization_flags.release", "-O3")],
    buildPath := "/tmp/build-blink",
    sketchMainFileBase := "Blink.ino",
    sketchFullPath := "/home/user/Blink",
    optimizeForDebug := false,
    requestBuildProperties := [] }

/-- C6 is refuted on the code: with board properties defining both
`compiler.optimization_flags = -Os` and its `.release` variant `-O3`, no user
overrides, and `optimizeForDebug = false`, `NewBuilder` succeeds but the
resulting build-properties map returns `-O3` for
`compiler.optimization_flags` — not the board value `-Os` — because
`NewBuilder` overwrites that key with the selected optimization profile
(builder.go lines 137-141).  A key present in the board properties only need
not map to the board value. -/
theorem board_only_key_not_board_value_counterexample :
    pmGet inpFlags.boardBuildProperties "compiler.optimization_flags" =
      some "-Os" ∧
    loadFromSlice inpFlags.requestBuildProperties = Except.ok [] ∧
    (newBuilder envOpt inpFlags).map
        (fun b => pmGet b.buildProperties "compiler.optimization_flags") =
      Except.ok (some "-O3") := by
  exact ⟨rfl, rfl, rfl⟩

/-- C6 (amended): in the Builder returned by `NewBuilder`, the user-supplied
custom build properties always win — every key they define maps to the
user-supplied value — and a key defined only in the board properties maps to
the board value unless it is one of the keys `NewBuilder` itself assigns:
`build.path`, `build.project_name`, `build.source.path`, or
`compiler.optimization_flags`. -/
theorem buildProperties_merge_semantics (env : BuildEnv)
    (inp : NewBuilderInput) (b : BuilderModel) (custom : PropMap)
    (k v : String)
    (hok : newBuilder env inp = Except.ok b)
    (hcustom : loadFromSlice inp.requestBuildProperties = Except.ok custom) :
    (pmGet custom k = some v → pmGet b.buildProperties k = some v) ∧
    (pmHasKey custom k = false →
      k ≠ "build.path" → k ≠ "build.project_name" →
      k ≠ "build.source.path" → k ≠ "compiler.optimization_flags" →
      (inp.boardBuildProperties.map Prod.fst).Nodup →
      pmGet b.buildProperties k = pmGet inp.boardBuildProperties k) := by
  have hb := newBuilder_ok_buildProperties env inp b custom hok hcustom
  constructor
  · intro hv
    have hnodup : (custom.map Prod.fst).Nodup :=
      loadFromSliceAux_nodup inp.requestBuildProperties [] custom
        (by simp) hcustom
    have hlast : pmLast custom k = some v := by
      rw [pmLast_eq_pmGet_of_nodup custom k hnodup]
      exact hv
    rw [hb, pmGet_merge, hlast]
  · intro h0 h1 h2 h3 h4 hnb
    have hlast : pmLast custom k = none :=
      pmLast_eq_none_of_not_hasKey custom k h0
    rw [hb, pmGet_merge, hlast]
    exact pmGet_baseBuildProperties inp k h1 h2 h3 h4 hnb

/-- A board definition with one overridden key (`x`) and one key the user
does not override (`compiler.warning_flags`). -/
def inpMergeW : NewBuilderInput :=
  { boardBuildProperties := [("x", "1"), ("compiler.warning_flags", "-w")],
    buildPath := "/tmp/build-blink",
    sketchMainFileBase := "Blink.ino",
    sketchFullPath := "/home/user/Blink",
    optimizeForDebug := false,
    requestBuildProperties := ["x=2"] }

/-- The Builder constructed from `inpMergeW`. -/
def builderMergeW : BuilderModel :=
  match newBuilder envOpt inpMergeW with
  | Except.ok b => b
  | Except.error _ =>
    { buildProperties := [], buildPath := "", customBuildProperties := [] }

theorem buildProperties_merge_semantics_witness :
    newBuilder envOpt inpMergeW = Except.ok builderMergeW ∧
    pmGet builderMergeW.buildProperties "x" = some "2" ∧
    pmGet builderMergeW.buildProperties "compiler.warning_flags" = some "-w" := by
  refine ⟨rfl, ?_, ?_⟩
  · exact (buildProperties_merge_semantics envOpt inpMergeW builderMergeW
      [("x", "2")] "x" "2" rfl rfl).1 rfl
  · exact Eq.trans
      ((buildProperties_merge_semantics envOpt inpMergeW builderMergeW
        [("x", "2")] "compiler.warning_flags" "" rfl rfl).2
        (by decide) (by decide) (by decide) (by decide) (by decide) (by decide))
      rfl

/-- C7: a malformed user property override — an entry of
`requestBuildProperties` that fails to parse as a `key=value` pair — makes
`NewBuilder` return the "invalid build properties" error (builder.go lines
143-147): no Builder is constructed and no build step ever runs. -/
theorem newBuilder_rejects_malformed_override (env : BuildEnv)
    (inp : NewBuilderInput)
    (h : ∃ line ∈ inp.requestBuildProperties,
      ∃ msg, parseLine line = Except.error msg) :
    ∃ msg2, newBuilder env inp =
      Except.error (NewBuilderError.invalidBuildProperties msg2) := by
  obtain ⟨msg2, hmsg⟩ := loadFromSliceAux_error inp.requestBuildProperties [] h
  have hload : loadFromSlice inp.requestBuildProperties = Except.error msg2 :=
    hmsg
  exact ⟨msg2, newBuilder_eq_error env inp msg2 hload⟩

/-- An input whose only property override lacks the `=` separator. -/
def inpMalformed : NewBuilderInput :=
  { boardBuildProperties := [],
    buildPath := "/tmp/build-blink",
    sketchMainFileBase := "Blink.ino",
    sketchFullPath := "/home/user/Blink",
    optimizeForDebug := false,
    requestBuildProperties := ["oops"] }

theorem newBuilder_rejects_malformed_override_witness :
    ∃ msg2, newBuilder envOpt inpMalformed =
      Except.error (NewBuilderError.invalidBuildProperties msg2) :=
  newBuilder_rejects_malformed_override envOpt inpMalformed
    ⟨"oops", by simp [inpMalformed],
     "invalid line format, should be key=value", rfl⟩

/-- C9: when the canonical forms of the build path and the sketch path are
equal (and the earlier checks of `NewBuilder` pass), `NewBuilder` fails with
`ErrSketchCannotBeLocatedInBuildPath` and returns no Builder (builder.go
lines 164-166); when the canonical forms differ, that error is never
returned. -/
theorem newBuilder_sketch_in_build_path (env : BuildEnv)
    (inp : NewBuilderInput) :
    ((∃ custom, loadFromSlice inp.requestBuildProperties = Except.ok custom) →
      env.absOk = true →
      env.canonical inp.buildPath = env.canonical inp.sketchFullPath →
      newBuilder env inp =
        Except.error NewBuilderError.sketchCannotBeLocatedInBuildPath) ∧
    (env.canonical inp.buildPath ≠ env.canonical inp.sketchFullPath →
      newBuilder env inp ≠
        Except.error NewBuilderError.sketchCannotBeLocatedInBuildPath) := by
  constructor
  · rintro ⟨custom, hload⟩ habs hcanon
    have hbeq : (env.canonical inp.buildPath ==
        env.canonical inp.sketchFullPath) = true := by simpa using hcanon
    rw [newBuilder_eq_checked env inp custom hload, newBuilderChecked,
      if_neg (by simp [habs]), if_pos hbeq]
  · intro hne
    cases hl : loadFromSlice inp.requestBuildProperties with
    | error msg => rw [newBuilder_eq_error env inp msg hl]; simp
    | ok custom =>
      rw [newBuilder_eq_checked env inp custom hl, newBuilderChecked]
      by_cases habs : env.absOk = false
      · rw [if_pos habs]; simp
      · rw [if_neg habs]
        have hbeq : (env.canonical inp.buildPath ==
            env.canonical inp.sketchFullPath) = false := by simpa using hne
        rw [if_neg (by simp [hbeq])]
        by_cases hlib : env.librariesLoaderOk = false
        · rw [if_pos hlib]; simp
        · rw [if_neg hlib]; simp

/-- An input whose build path is exactly the sketch path. -/
def inpSketchInBuild : NewBuilderInput :=
  { boardBuildProperties := [],
    buildPath := "/home/user/Blink",
    sketchMainFileBase := "Blink.ino",
    sketchFullPath := "/home/user/Blink",
    optimizeForDebug := false,
    requestBuildProperties := [] }

theorem newBuilder_sketch_in_build_path_witness :
    newBuilder envOpt inpSketchInBuild =
      Except.error NewBuilderError.sketchCannotBeLocatedInBuildPath ∧
    newBuilder envOpt inpMergeW ≠
      Except.error NewBuilderError.sketchCannotBeLocatedInBuildPath :=
  ⟨(newBuilder_sketch_in_build_path envOpt inpSketchInBuild).1 ⟨[], rfl⟩ rfl rfl,
   (newBuilder_sketch_in_build_path envOpt inpMergeW).2 (by decide)⟩


/-- One entry of the libraries build directory, as the remover observes it:
a name and whether it is a subdirectory. -/
structure FsEntry where
  name : String
  isDir : Bool
  deriving DecidableEq, Repr

/-- Modelled from the spec: `UnusedCompiledLibrariesRemover.Run`
(`legacy/builder`, implementation not under `src/`; §4.7): if the libraries
build directory does not exist (`tree = none`) it returns no error and
touches nothing; otherwise, every directory entry whose name is not a
currently-imported library name is deleted recursively, and non-directory
entries at that level are untouched.  The behavior is corroborated by the
three tests in
`src/legacy/builder/test/unused_compiled_libraries_remover_test.go`. -/
def removeUnusedCompiledLibraries (tree : Option (List FsEntry))
    (importedLibraryNames : List String) :
    Except String (Option (List FsEntry)) :=
  match tree with
  | none => Except.ok none
  | some entries =>
    Except.ok (some (entries.filter
      (fun e => !e.isDir || importedLibraryNames.contains e.name)))

/-- C4: `removeUnusedCompiledLibraries` keeps exactly the entries that are
not directories or whose name is an imported library — equivalently, it
deletes exactly the directory entries whose name is not imported and leaves
every non-directory entry untouched; with an empty imported set it keeps
exactly the non-directory entries. -/
theorem removeUnused_deletes_exactly_unimported (entries : List FsEntry)
    (imported : List String) :
    ∃ kept,
      removeUnusedCompiledLibraries (some entries) imported =
        Except.ok (some kept) ∧
      (∀ e : FsEntry, e ∈ kept ↔
        e ∈ entries ∧ (e.isDir = false ∨ e.name ∈ imported)) ∧
      (imported = [] → kept = entries.filter (fun e => !e.isDir)) := by
  refine ⟨entries.filter (fun e => !e.isDir || imported.contains e.name),
    rfl, ?_, ?_⟩
  · intro e
    constructor
    · intro hk
      obtain ⟨hm, hp⟩ := List.mem_filter.mp hk
      refine ⟨hm, ?_⟩
      rcases Bool.or_eq_true_iff.mp hp with h | h
      · left
        simpa using h
      · right
        simpa using h
    · rintro ⟨hm, hcond⟩
      refine List.mem_filter.mpr ⟨hm, ?_⟩
      rcases hcond with h | h
      · exact Bool.or_eq_true_iff.mpr (Or.inl (by simpa using h))
      · exact Bool.or_eq_true_iff.mpr (Or.inr (by simpa using h))
  · intro h
    subst h
    apply List.filter_congr
    intro e he
    simp

theorem removeUnused_deletes_exactly_unimported_witness :
    ∃ kept,
      removeUnusedCompiledLibraries
          (some [⟨"SPI", true⟩, ⟨"Bridge", true⟩, ⟨"dummy_file", false⟩])
          ["Bridge"] =
        Except.ok (some kept) ∧
      (∀ e : FsEntry, e ∈ kept ↔
        e ∈ ([⟨"SPI", true⟩, ⟨"Bridge", true⟩,
          ⟨"dummy_file", false⟩] : List FsEntry) ∧
        (e.isDir = false ∨ e.name ∈ ["Bridge"])) ∧
      (["Bridge"] = ([] : List String) →
        kept = List.filter (fun e => !e.isDir)
          [⟨"SPI", true⟩, ⟨"Bridge", true⟩, ⟨"dummy_file", false⟩]) :=
  removeUnused_deletes_exactly_unimported
    [⟨"SPI", true⟩, ⟨"Bridge", true⟩, ⟨"dummy_file", false⟩] ["Bridge"]

/-- C10: when the libraries build directory does not exist,
`removeUnusedCompiledLibraries` succeeds for every imported-library set — a
missing libraries build tree is not an environment failure (test
`TestUnusedCompiledLibrariesRemoverLibDoesNotExist`). -/
theorem removeUnused_ok_when_tree_missing (imported : List String) :
    removeUnusedCompiledLibraries none imported = Except.ok none := rfl

end ArduinoBuilder
